import Mathlib

/-!
Verification development for the task-execution engine of the
AI_VOICE_AUTOMATION repository: a shallow embedding of the retry blocks of
the Celery task handlers (src/app/tasks/ai_tasks.py, src/app/tasks/video_tasks.py),
the task monitor control operations (src/app/tasks/task_monitor.py), the batch
ingestion coordinator (src/app/services/ingest/batch_ingestion.py) and the chord
workflow composition (src/app/tasks/workflow_tasks.py), together with theorems
about retry backoff, retry/cancel control semantics, batch aggregation, progress
reporting and chord callback delivery.
-/

/-- Celery task status values, from `TaskStatus` in src/app/tasks/task_monitor.py. -/
inductive TaskStatus
  | PENDING
  | STARTED
  | SUCCESS
  | FAILURE
  | RETRY
  | REVOKED
deriving DecidableEq, Repr

/-- String form of a status, as interpolated into monitor messages. -/
def TaskStatus.str : TaskStatus → String
  | .PENDING => "PENDING"
  | .STARTED => "STARTED"
  | .SUCCESS => "SUCCESS"
  | .FAILURE => "FAILURE"
  | .RETRY => "RETRY"
  | .REVOKED => "REVOKED"

/-- Failure classification of the spec (Transient vs Permanent). The Python
handlers catch every `Exception` uniformly; this type records the class a
failure would have under the spec taxonomy so that theorems can quantify
over it. -/
inductive FailureKind
  | transient
  | permanent
deriving DecidableEq, Repr

/-- Outcome of the `except Exception` block of a task handler: either a retry
is raised with a countdown (seconds), or the exception is re-raised and the
execution fails. -/
inductive RetryDecision
  | retryIn (countdown : Nat)
  | reraise
deriving DecidableEq, Repr

/-- Embeds the shared retry block of the task handlers, e.g.
`transcribe_audio_task` (src/app/tasks/ai_tasks.py lines 158-167) and
`download_video_task` (src/app/tasks/video_tasks.py lines 65-72):
`if self.request.retries < self.max_retries: raise self.retry(countdown=base * (2 ** self.request.retries))`
else `raise exc`. `base` is 60 for the cited tasks; the exception value is
never inspected by the branch. -/
def handleTaskFailure (base retries maxRetries : Nat) (_exc : FailureKind) : RetryDecision :=
  if retries < maxRetries then .retryIn (base * 2 ^ retries) else .reraise

/-- Execution-side state of one task under repeated failures: the Celery retry
counter `self.request.retries` and whether the task has reached terminal
failure. -/
structure TaskRunState where
  retries : Nat
  terminal : Bool
deriving DecidableEq, Repr

/-- One failed execution: following the handler branch, a state with retries
remaining re-enters with the counter incremented, otherwise the task becomes
terminally failed with the counter unchanged. -/
def failStep (maxRetries : Nat) (s : TaskRunState) : TaskRunState :=
  if s.terminal then s
  else if s.retries < maxRetries then { retries := s.retries + 1, terminal := false }
  else { s with terminal := true }

/-- State after `n` failed executions of an always-failing task, starting from
a fresh submission (`retries = 0`, not terminal). -/
def runFailures (maxRetries : Nat) : Nat → TaskRunState
  | 0 => { retries := 0, terminal := false }
  | n + 1 => failStep maxRetries (runFailures maxRetries n)

theorem runFailures_retries_le (m : Nat) : ∀ n, (runFailures m n).retries ≤ m := by
  intro n
  induction n with
  | zero => exact Nat.zero_le m
  | succ k ih =>
    simp only [runFailures, failStep]
    split
    · exact ih
    · split
      · next h => exact h
      · exact ih

theorem runFailures_terminal_at_max (m : Nat) :
    ∀ n, (runFailures m n).terminal = true → (runFailures m n).retries = m := by
  intro n
  induction n with
  | zero => intro h; simp [runFailures] at h
  | succ k ih =>
    intro h
    unfold runFailures failStep at h ⊢
    split_ifs at h ⊢ with ht hlt
    · exact ih h
    · have h1 := runFailures_retries_le m k
      show (runFailures m k).retries = m
      omega

/-- C3: for every task run under the handler retry block, the retry counter
never exceeds `max_retries`; the run reaches terminal failure only with the
counter at exactly `max_retries`; and whenever the current retry count is
still below the maximum, the handler decision is a retry (with the backoff
countdown), never a terminal re-raise. -/
theorem attempts_bounded_and_terminal_only_at_max
    (m n base : Nat) (e : FailureKind) :
    (runFailures m n).retries ≤ m ∧
    ((runFailures m n).terminal = true → (runFailures m n).retries = m) ∧
    (∀ r, r < m → handleTaskFailure base r m e = .retryIn (base * 2 ^ r)) := by
  refine ⟨runFailures_retries_le m n, runFailures_terminal_at_max m n, ?_⟩
  intro r hr
  simp [handleTaskFailure, hr]

theorem attempts_bounded_and_terminal_only_at_max_witness :
    (runFailures 3 7).retries ≤ 3 ∧
    (runFailures 3 7).retries = 3 ∧
    handleTaskFailure 60 1 3 .transient = .retryIn 120 := by
  have h := attempts_bounded_and_terminal_only_at_max 3 7 60 .transient
  exact ⟨h.1, h.2.1 (by decide), h.2.2 1 (by decide)⟩

/-- C1: for a failed execution whose 1-based attempt number `a` satisfies
`a ≤ max_retries`, the handler retries with delay exactly
`base * 2 ^ (a - 1)`; every delay is bounded by the largest backoff
`base * 2 ^ (max_retries - 1)` (the code applies no separate cap, so this
bound is the effective maximum); and with `max_retries = 3` the three
retries are delayed by `base`, `2 * base`, `4 * base`. -/
theorem retry_delay_exponential (base a m : Nat) (e : FailureKind)
    (ha : 1 ≤ a) (ham : a ≤ m) :
    handleTaskFailure base (a - 1) m e = .retryIn (base * 2 ^ (a - 1)) ∧
    base * 2 ^ (a - 1) ≤ base * 2 ^ (m - 1) ∧
    handleTaskFailure base 0 3 e = .retryIn base ∧
    handleTaskFailure base 1 3 e = .retryIn (2 * base) ∧
    handleTaskFailure base 2 3 e = .retryIn (4 * base) := by
  refine ⟨?_, ?_, ?_, ?_, ?_⟩
  · have h : a - 1 < m := by omega
    simp [handleTaskFailure, h]
  · exact Nat.mul_le_mul_left base (Nat.pow_le_pow_right (by norm_num) (by omega))
  · simp [handleTaskFailure]
  · simp [handleTaskFailure, Nat.mul_comm]
  · simp [handleTaskFailure, Nat.mul_comm]

theorem retry_delay_exponential_witness :
    handleTaskFailure 60 1 3 .transient = .retryIn (60 * 2 ^ 1) ∧
    60 * 2 ^ 1 ≤ 60 * 2 ^ 2 ∧
    handleTaskFailure 60 0 3 .transient = .retryIn 60 ∧
    handleTaskFailure 60 1 3 .transient = .retryIn (2 * 60) ∧
    handleTaskFailure 60 2 3 .transient = .retryIn (4 * 60) := by
  have h := retry_delay_exponential 60 2 3 .transient (by decide) (by decide)
  exact h

/-- C2 counterexample: a Permanent-classified failure at the first execution
of a task with `max_retries = 3` (the configuration of
`transcribe_video_task` and `download_video_task`) is retried with the
60-second backoff rather than failing terminally, because the handler branch
never inspects the failure classification. -/
theorem permanent_failure_retried_counterexample :
    handleTaskFailure 60 0 3 .permanent = .retryIn 60 ∧
    handleTaskFailure 60 0 3 .permanent ≠ .reraise := by
  constructor
  · simp [handleTaskFailure]
  · simp [handleTaskFailure]

/-- C2 amended: the task handlers ignore the failure classification entirely:
any failure, Permanent or Transient, is retried with the exponential backoff
whenever the retry counter is below `max_retries`, and a terminal re-raise
happens only when retries are exhausted. In particular a Permanent failure is
treated exactly like a Transient one. -/
theorem failure_classification_ignored (base r m : Nat) (e : FailureKind) :
    (r < m → handleTaskFailure base r m e = .retryIn (base * 2 ^ r)) ∧
    (m ≤ r → handleTaskFailure base r m e = .reraise) ∧
    handleTaskFailure base r m .permanent = handleTaskFailure base r m .transient := by
  refine ⟨?_, ?_, rfl⟩
  · intro h; simp [handleTaskFailure, h]
  · intro h; simp [handleTaskFailure, Nat.not_lt.mpr h]

theorem failure_classification_ignored_witness :
    handleTaskFailure 60 2 3 .permanent = .retryIn (60 * 2 ^ 2) ∧
    handleTaskFailure 60 3 3 .permanent = .reraise ∧
    handleTaskFailure 60 3 3 .permanent = handleTaskFailure 60 3 3 .transient := by
  have h1 := failure_classification_ignored 60 2 3 .permanent
  have h2 := failure_classification_ignored 60 3 3 .permanent
  exact ⟨h1.1 (by decide), h2.2.1 (by decide), h2.2.2⟩

/-- One task record in the Celery result backend, as read through
`AsyncResult` in src/app/tasks/task_monitor.py: registered task name,
positional args, keyword args, current status and retry counter. -/
structure TaskRec where
  name : String
  args : List String
  kwargs : List (String × String)
  status : TaskStatus
  retries : Nat
deriving DecidableEq, Repr

/-- The Celery app state visible to the monitor: backend records keyed by
task id (the first entry for an id wins on lookup) plus a counter used to
generate fresh task ids. -/
structure CeleryState where
  tasks : List (String × TaskRec)
  nextId : Nat
deriving DecidableEq, Repr

/-- Backend lookup behind `AsyncResult(task_id)`. -/
def findTask (st : CeleryState) (taskId : String) : Option TaskRec :=
  (st.tasks.find? (fun p => p.1 == taskId)).map Prod.snd

/-- Status reported by `AsyncResult(task_id).status`: the stored status, or
PENDING for an id the backend does not know (Celery reports unknown ids as
PENDING). -/
def statusOf (st : CeleryState) (taskId : String) : TaskStatus :=
  match findTask st taskId with
  | some t => t.status
  | none => .PENDING

/-- The id 'celery_app.send_task' will assign next. -/
def freshId (st : CeleryState) : String :=
  "task-" ++ toString st.nextId

/-- Embeds `celery_app.send_task(task_name, args=task_args, kwargs=task_kwargs)`
as used by the monitor: a new record is created under a fresh id, Pending,
with retry counter 0. -/
def send_task (st : CeleryState) (name : String) (args : List String)
    (kwargs : List (String × String)) : CeleryState × String :=
  let newId := freshId st
  ({ tasks := st.tasks ++
       [(newId, { name := name, args := args, kwargs := kwargs,
                  status := .PENDING, retries := 0 })],
     nextId := st.nextId + 1 }, newId)

/-- The dict returned by `TaskMonitor.retry_failed_task`, reduced to the
fields the claims are about. -/
structure RetryCallResult where
  success : Bool
  error : Option String
  original_task_id : Option String
  new_task_id : Option String
deriving DecidableEq, Repr

/-- Embeds `TaskMonitor.retry_failed_task` (src/app/tasks/task_monitor.py
lines 204-248): if the status of the id is not FAILURE the call returns a
failure dict (`success: False`, `error: "Task status is ..., cannot retry"`)
without submitting anything; otherwise the original task name, args and
kwargs are resubmitted through `send_task` under a new task id. -/
def retry_failed_task (st : CeleryState) (taskId : String) :
    CeleryState × RetryCallResult :=
  match findTask st taskId with
  | none =>
    (st, { success := false,
           error := some ("Task status is " ++ TaskStatus.str .PENDING ++
                          ", cannot retry"),
           original_task_id := none, new_task_id := none })
  | some t =>
    if t.status ≠ .FAILURE then
      (st, { success := false,
             error := some ("Task status is " ++ t.status.str ++
                            ", cannot retry"),
             original_task_id := none, new_task_id := none })
    else
      let r := send_task st t.name t.args t.kwargs
      (r.1, { success := true, error := none,
              original_task_id := some taskId, new_task_id := some r.2 })

/-- Terminal statuses of the task state machine: success, terminal failure
and revocation. -/
def TaskStatus.isTerminal : TaskStatus → Bool
  | .SUCCESS => true
  | .FAILURE => true
  | .REVOKED => true
  | _ => false

/-- Effect on the backend of the revoke control message issued by
`AsyncResult.revoke`: the first record stored under the id is marked REVOKED
if it has not already reached a terminal state; a terminal record keeps its
stored result. -/
def revokeEntries (taskId : String) :
    List (String × TaskRec) → List (String × TaskRec)
  | [] => []
  | (i, t) :: rest =>
    if i == taskId then
      (if t.status.isTerminal then (i, t)
       else (i, { t with status := .REVOKED })) :: rest
    else (i, t) :: revokeEntries taskId rest

/-- Applies the revoke control message to the backend state. -/
def revoke (st : CeleryState) (taskId : String) : CeleryState :=
  { st with tasks := revokeEntries taskId st.tasks }

/-- The dict returned by `TaskMonitor.cancel_task`. -/
structure CancelCallResult where
  task_id : String
  action : String
  success : Bool
deriving DecidableEq, Repr

/-- Embeds `TaskMonitor.cancel_task` (src/app/tasks/task_monitor.py lines
168-202): a revoke (or terminate) command is issued for the id regardless of
its current status, and the call returns the action descriptor with
`success: True`. The middle component records the revocation commands issued
as (task id, terminate flag) pairs. -/
def cancel_task (st : CeleryState) (taskId : String) (terminate : Bool) :
    CeleryState × List (String × Bool) × CancelCallResult :=
  let st2 := revoke st taskId
  (st2, [(taskId, terminate)],
   { task_id := taskId,
     action := if terminate then "terminated" else "revoked",
     success := true })

/-- A small backend with one succeeded and one terminally failed task, used
for concrete evaluation of the monitor operations. -/
def demoState : CeleryState :=
  { tasks := [("t-ok", { name := "download_video_task", args := ["u1"],
                         kwargs := [], status := .SUCCESS, retries := 0 }),
              ("t-bad", { name := "download_video_task", args := ["u2"],
                          kwargs := [], status := .FAILURE, retries := 3 })],
    nextId := 0 }

/-- C6: invoking `retry_failed_task` on a task id whose status is not
terminal FAILURE refuses the retry: the backend is left unchanged (no new
task is submitted), the call reports failure, carries the invalid-state
error message for the current status, and returns no new task id. -/
theorem retry_nonfailed_refused (st : CeleryState) (taskId : String)
    (h : statusOf st taskId ≠ .FAILURE) :
    (retry_failed_task st taskId).1 = st ∧
    (retry_failed_task st taskId).2.success = false ∧
    (retry_failed_task st taskId).2.new_task_id = none ∧
    (retry_failed_task st taskId).2.error =
      some ("Task status is " ++ (statusOf st taskId).str ++
            ", cannot retry") := by
  cases hf : findTask st taskId with
  | none =>
    simp [retry_failed_task, statusOf, hf]
  | some t =>
    have ht : t.status ≠ .FAILURE := by
      simpa [statusOf, hf] using h
    simp [retry_failed_task, statusOf, hf, ht]

theorem retry_nonfailed_refused_witness :
    statusOf demoState "t-ok" ≠ .FAILURE ∧
    (retry_failed_task demoState "t-ok").1 = demoState ∧
    (retry_failed_task demoState "t-ok").2.success = false ∧
    (retry_failed_task demoState "t-ok").2.new_task_id = none ∧
    (retry_failed_task demoState "t-ok").2.error =
      some ("Task status is " ++ (statusOf demoState "t-ok").str ++
            ", cannot retry") := by
  have h := retry_nonfailed_refused demoState "t-ok" (by decide)
  exact ⟨by decide, h.1, h.2.1, h.2.2.1, h.2.2.2⟩

/-- C7 counterexample: task id `t-bad` is stored as terminal FAILURE; the
first `retry_failed_task` call succeeds and resubmits it, but the original id
still reports FAILURE afterwards, and a second call on the same id succeeds
again and submits yet another task, instead of signalling an invalid-state
error. -/
theorem retry_twice_second_succeeds_counterexample :
    statusOf demoState "t-bad" = .FAILURE ∧
    (retry_failed_task demoState "t-bad").2.success = true ∧
    statusOf (retry_failed_task demoState "t-bad").1 "t-bad" = .FAILURE ∧
    (retry_failed_task
      (retry_failed_task demoState "t-bad").1 "t-bad").2.success = true ∧
    (retry_failed_task
      (retry_failed_task demoState "t-bad").1 "t-bad").2.new_task_id =
      some "task-1" := by
  decide

theorem find_some_of_append {α : Type} {p : α → Bool} {l1 : List α}
    (l2 : List α) {a : α} (h : l1.find? p = some a) :
    (l1 ++ l2).find? p = some a := by
  rw [List.find?_append, h]
  rfl

theorem find_none_of_append {α : Type} {p : α → Bool} {l1 : List α}
    (l2 : List α) (h : l1.find? p = none) :
    (l1 ++ l2).find? p = l2.find? p := by
  rw [List.find?_append, h]
  rfl

/-- C7 amended: for a task id stored as terminal FAILURE, every call to
`retry_failed_task` succeeds and resubmits the original name/args/kwargs as
a fresh task id whose record is Pending with retry counter 0; the original
record is left untouched, so the original id still reports FAILURE, and a
second call on the same id succeeds in exactly the same way (submitting a
further task) instead of signalling an invalid-state error. -/
theorem retry_failed_resubmits_each_call (st : CeleryState) (taskId : String)
    (t : TaskRec) (hf : findTask st taskId = some t) (hs : t.status = .FAILURE)
    (hfresh : findTask st (freshId st) = none) :
    (retry_failed_task st taskId).2.success = true ∧
    (retry_failed_task st taskId).2.new_task_id = some (freshId st) ∧
    findTask (retry_failed_task st taskId).1 taskId = some t ∧
    statusOf (retry_failed_task st taskId).1 taskId = .FAILURE ∧
    findTask (retry_failed_task st taskId).1 (freshId st) =
      some { name := t.name, args := t.args, kwargs := t.kwargs,
             status := .PENDING, retries := 0 } ∧
    (retry_failed_task (retry_failed_task st taskId).1 taskId).2.success =
      true := by
  have hrun : retry_failed_task st taskId =
      ((send_task st t.name t.args t.kwargs).1,
       { success := true, error := none,
         original_task_id := some taskId,
         new_task_id := some (send_task st t.name t.args t.kwargs).2 }) := by
    simp [retry_failed_task, hf, hs]
  obtain ⟨pr, hpr, hpr2⟩ :
      ∃ pr, st.tasks.find? (fun p => p.1 == taskId) = some pr ∧ pr.2 = t := by
    unfold findTask at hf
    cases hq : st.tasks.find? (fun p => p.1 == taskId) with
    | none => rw [hq] at hf; simp at hf
    | some pr => rw [hq] at hf; simp at hf; exact ⟨pr, rfl, hf⟩
  have hfind2 : findTask (retry_failed_task st taskId).1 taskId = some t := by
    rw [hrun]
    unfold findTask send_task
    simp only
    rw [find_some_of_append _ hpr]
    simp [hpr2]
  have hnone : st.tasks.find? (fun p => p.1 == freshId st) = none := by
    unfold findTask at hfresh
    cases hq : st.tasks.find? (fun p => p.1 == freshId st) with
    | none => rfl
    | some pr => rw [hq] at hfresh; simp at hfresh
  refine ⟨by rw [hrun], by rw [hrun]; rfl, hfind2, ?_, ?_, ?_⟩
  · unfold statusOf
    rw [hfind2]
    simp [hs]
  · rw [hrun]
    unfold findTask send_task
    simp only
    rw [find_none_of_append _ hnone]
    simp [List.find?]
  · have h6 : ∀ st2 : CeleryState, findTask st2 taskId = some t →
        (retry_failed_task st2 taskId).2.success = true := by
      intro st2 h2
      simp [retry_failed_task, h2, hs]
    exact h6 _ hfind2

theorem retry_failed_resubmits_each_call_witness :
    (retry_failed_task demoState "t-bad").2.success = true ∧
    (retry_failed_task demoState "t-bad").2.new_task_id =
      some (freshId demoState) ∧
    findTask (retry_failed_task demoState "t-bad").1 "t-bad" =
      some { name := "download_video_task", args := ["u2"], kwargs := [],
             status := .FAILURE, retries := 3 } ∧
    statusOf (retry_failed_task demoState "t-bad").1 "t-bad" = .FAILURE ∧
    findTask (retry_failed_task demoState "t-bad").1 (freshId demoState) =
      some { name := "download_video_task", args := ["u2"], kwargs := [],
             status := .PENDING, retries := 0 } ∧
    (retry_failed_task
      (retry_failed_task demoState "t-bad").1 "t-bad").2.success = true := by
  exact retry_failed_resubmits_each_call demoState "t-bad"
    { name := "download_video_task", args := ["u2"], kwargs := [],
      status := .FAILURE, retries := 3 }
    (by decide) (by decide) (by decide)

/-- C8 counterexample: cancelling the already-succeeded task `t-ok` is not
refused: a revoke command is issued for it anyway, and the call returns the
action descriptor (`action = "revoked"`, `success = true`) rather than the
existing terminal status SUCCESS. -/
theorem cancel_terminal_revokes_counterexample :
    (statusOf demoState "t-ok").isTerminal = true ∧
    (cancel_task demoState "t-ok" false).2.1 = [("t-ok", false)] ∧
    (cancel_task demoState "t-ok" false).2.2 =
      { task_id := "t-ok", action := "revoked", success := true } := by
  decide

theorem revokeEntries_of_terminal (taskId : String) :
    ∀ l : List (String × TaskRec),
      (∀ pr : String × TaskRec, l.find? (fun p => p.1 == taskId) = some pr →
        pr.2.status.isTerminal = true) →
      revokeEntries taskId l = l := by
  intro l
  induction l with
  | nil => intro _; rfl
  | cons x xs ih =>
    intro h
    unfold revokeEntries
    cases hx : (x.1 == taskId) with
    | true =>
      have hterm : x.2.status.isTerminal = true := by
        apply h x
        exact List.find?_cons_of_pos xs hx
      simp [hx, hterm]
    | false =>
      have hrest : ∀ pr : String × TaskRec,
          xs.find? (fun p => p.1 == taskId) = some pr →
          pr.2.status.isTerminal = true := by
        intro pr hpr
        apply h pr
        rw [List.find?_cons_of_neg xs (by simp [hx])]
        exact hpr
      simp only [hx, ih hrest]
      simp

/-- C8 amended: `cancel_task` never inspects the task status: it issues
exactly one revoke (or terminate) command for the id and returns the action
descriptor with `success = true`. For an id whose first backend record is
already terminal, the revoke leaves the backend state unchanged, but the
existing terminal status is not what the call returns. -/
theorem cancel_always_revokes (st : CeleryState) (taskId : String)
    (term : Bool) :
    (cancel_task st taskId term).2.1 = [(taskId, term)] ∧
    (cancel_task st taskId term).2.2 =
      { task_id := taskId,
        action := if term then "terminated" else "revoked",
        success := true } ∧
    (∀ t, findTask st taskId = some t → t.status.isTerminal = true →
      (cancel_task st taskId term).1 = st) := by
  refine ⟨rfl, rfl, ?_⟩
  intro t hf ht
  obtain ⟨pr, hpr, hpr2⟩ :
      ∃ pr, st.tasks.find? (fun p => p.1 == taskId) = some pr ∧ pr.2 = t := by
    unfold findTask at hf
    cases hq : st.tasks.find? (fun p => p.1 == taskId) with
    | none => rw [hq] at hf; simp at hf
    | some pr => rw [hq] at hf; simp at hf; exact ⟨pr, rfl, hf⟩
  have hall : ∀ pr2 : String × TaskRec,
      st.tasks.find? (fun p => p.1 == taskId) = some pr2 →
      pr2.2.status.isTerminal = true := by
    intro pr2 hpr3
    rw [hpr] at hpr3
    cases hpr3
    rw [hpr2]
    exact ht
  show revoke st taskId = st
  unfold revoke
  rw [revokeEntries_of_terminal taskId st.tasks hall]

theorem cancel_always_revokes_witness :
    (cancel_task demoState "t-ok" false).2.1 = [("t-ok", false)] ∧
    (cancel_task demoState "t-ok" false).2.2 =
      { task_id := "t-ok", action := if false then "terminated" else "revoked",
        success := true } ∧
    (cancel_task demoState "t-ok" false).1 = demoState := by
  have h := cancel_always_revokes demoState "t-ok" false
  exact ⟨h.1, h.2.1,
    h.2.2 { name := "download_video_task", args := ["u1"], kwargs := [],
            status := .SUCCESS, retries := 0 } (by decide) (by decide)⟩

/-- Batch job status values, from `BatchStatus` in
src/app/services/ingest/batch_ingestion.py. -/
inductive BatchStatus
  | PENDING
  | RUNNING
  | COMPLETED
  | FAILED
  | CANCELLED
deriving DecidableEq, Repr

/-- What one call to `ingest_video` produces for a URL, as observed by
`process_single_url`: either the service returns its result dict, whose
`success` key is True or False, or the call raises and the exception message
is observed. (`ingest_video` itself catches its internal exceptions and
returns a `success: False` dict, but `process_single_url` also guards
against a raise.) -/
inductive IngestOutcome
  | returns (success : Bool) (detail : String)
  | raises (msg : String)
deriving DecidableEq, Repr

/-- The per-item record appended to `batch_job.results` by
`process_single_url` (src/app/services/ingest/batch_ingestion.py lines
114-135): the result dict tagged with the url index, or a `success: False`
dict with the error string when the call raised. -/
structure ItemResult where
  success : Bool
  url_index : Nat
  detail : String
deriving DecidableEq, Repr

/-- Embeds `process_single_url`: a raised exception for one URL is caught and
recorded as a failed item result; it never propagates to the batch loop. -/
def process_single_url (outcome : IngestOutcome) (index : Nat) : ItemResult :=
  match outcome with
  | .returns s d => { success := s, url_index := index, detail := d }
  | .raises msg => { success := false, url_index := index, detail := msg }

/-- The `BatchJob` dataclass of src/app/services/ingest/batch_ingestion.py,
restricted to the fields the claims are about. -/
structure BatchJob where
  job_id : String
  user_id : String
  total_videos : Nat
  successful_videos : Nat
  failed_videos : Nat
  progress : Nat
  status : BatchStatus
  results : List ItemResult
deriving DecidableEq, Repr

/-- A freshly created batch job for `urls` with `len(urls)` total videos
(`BatchJob.__post_init__`), Pending, zero counters, empty results. -/
def mkBatchJob (jobId userId : String) (urlCount : Nat) : BatchJob :=
  { job_id := jobId, user_id := userId, total_videos := urlCount,
    successful_videos := 0, failed_videos := 0, progress := 0,
    status := .PENDING, results := [] }

/-- Round a rational to the nearest integer, ties to even - the rounding
step of the IEEE 754 round-to-nearest mode used by CPython float
operations. -/
def roundHalfEven (s : ℚ) : ℤ :=
  if s - ⌊s⌋ < 1/2 then ⌊s⌋
  else if 1/2 < s - ⌊s⌋ then ⌊s⌋ + 1
  else if ⌊s⌋ % 2 = 0 then ⌊s⌋ else ⌊s⌋ + 1

/-- The binade exponent of a positive rational: the unique `k` with
`2 ^ k ≤ q < 2 ^ (k + 1)`, located from the bit lengths of the numerator
and denominator. -/
def binadeExp (q : ℚ) : ℤ :=
  if q < 2 ^ ((q.num.natAbs.log2 : ℤ) - (q.den.log2 : ℤ))
  then (q.num.natAbs.log2 : ℤ) - (q.den.log2 : ℤ) - 1
  else (q.num.natAbs.log2 : ℤ) - (q.den.log2 : ℤ)

/-- The binary64 double nearest to a nonnegative rational (round to nearest,
ties to even), for values in the normal range - exponent overflow and
underflow, which no progress ratio of a feasible batch reaches, are not
modelled: the value is scaled into `[2^52, 2^53)`, its 53-bit significand is
rounded half-to-even, and the result is scaled back. A nonpositive input
maps to zero (the progress pipeline only produces nonnegative values). -/
def roundDouble (q : ℚ) : ℚ :=
  if q ≤ 0 then 0
  else (roundHalfEven (q * 2 ^ (52 - binadeExp q)) : ℚ) * 2 ^ (binadeExp q - 52)

/-- Embeds the Python expression `int((p / t) * 100)` as CPython evaluates
it: the true-division quotient `p / t` is the correctly rounded binary64
double of the exact ratio, the product with `100` (an exactly representable
double) is correctly rounded again, and `int` truncates the nonnegative
result toward zero. This expression is the batch progress of
`_process_batch` (src/app/services/ingest/batch_ingestion.py line 155) and
the workflow progress of `get_workflow_status`
(src/app/tasks/task_monitor.py line 128). -/
def pyProgress (p t : ℕ) : ℕ :=
  (⌊roundDouble (roundDouble ((p : ℚ) / t) * 100)⌋).toNat

/-- Embeds one iteration of the `as_completed` loop of `_process_batch`
(lines 144-161): the completed item result is appended, the matching counter
is incremented, and the progress percentage is recomputed as
`int((processed / total_videos) * 100)` through the binary64 float
pipeline. -/
def recordResult (job : BatchJob) (r : ItemResult) : BatchJob :=
  let job1 := { job with results := job.results ++ [r] }
  let job2 :=
    if r.success then
      { job1 with successful_videos := job1.successful_videos + 1 }
    else
      { job1 with failed_videos := job1.failed_videos + 1 }
  let processed := job2.successful_videos + job2.failed_videos
  { job2 with progress := pyProgress processed job2.total_videos }

/-- Embeds `_process_batch` (src/app/services/ingest/batch_ingestion.py lines
103-182) for a batch whose items all reach a terminal per-item outcome: the
job is marked Running, each completed item (in completion order, as
serialized by `asyncio.as_completed`) is folded through `recordResult`, and
the job is then marked Completed. The FAILED branch of the surrounding
`except` is unreachable in this case because `process_single_url` catches
per-item exceptions. -/
def processBatch (job : BatchJob) (completed : List ItemResult) : BatchJob :=
  let running := { job with status := BatchStatus.RUNNING }
  let afterItems := completed.foldl recordResult running
  { afterItems with status := BatchStatus.COMPLETED }

theorem foldl_recordResult_counts (rs : List ItemResult) :
    ∀ job : BatchJob,
      (rs.foldl recordResult job).successful_videos =
        job.successful_videos + (rs.filter (fun r => r.success)).length ∧
      (rs.foldl recordResult job).failed_videos =
        job.failed_videos + (rs.filter (fun r => !r.success)).length ∧
      (rs.foldl recordResult job).total_videos = job.total_videos ∧
      (rs.foldl recordResult job).results = job.results ++ rs := by
  induction rs with
  | nil => intro job; simp
  | cons r rest ih =>
    intro job
    have h := ih (recordResult job r)
    cases hr : r.success with
    | true =>
      simp only [List.foldl_cons, List.filter_cons, hr]
      refine ⟨?_, ?_, ?_, ?_⟩
      · rw [h.1]
        simp [recordResult, hr, Nat.add_comm, Nat.add_left_comm, Nat.add_assoc]
      · rw [h.2.1]; simp [recordResult, hr]
      · rw [h.2.2.1]; simp [recordResult, hr]
      · rw [h.2.2.2]; simp [recordResult, hr]
    | false =>
      simp only [List.foldl_cons, List.filter_cons, hr]
      refine ⟨?_, ?_, ?_, ?_⟩
      · rw [h.1]; simp [recordResult, hr]
      · rw [h.2.1]
        simp [recordResult, hr, Nat.add_comm, Nat.add_left_comm, Nat.add_assoc]
      · rw [h.2.2.1]; simp [recordResult, hr]
      · rw [h.2.2.2]; simp [recordResult, hr]

/-- The five alternating outcomes of the scenario: items 0, 2, 4 succeed and
items 1, 3 fail. -/
def altFiveResults : List ItemResult :=
  [process_single_url (.returns true "ok") 0,
   process_single_url (.returns false "failure") 1,
   process_single_url (.returns true "ok") 2,
   process_single_url (.raises "boom") 3,
   process_single_url (.returns true "ok") 4]

/-- C4: when every item of a batch reaches a terminal per-item outcome (in
any completion order), the batch finishes Completed, never Failed, with
`successful_videos` equal to the number of items whose result reports
success and `failed_videos` equal to the number of failed items - one item
failing (even by raising) does not abort the others, all results are
recorded. In particular five alternating success/failure items give
3 succeeded, 2 failed, status Completed. -/
theorem batch_completes_with_counts (jobId userId : String)
    (rs : List ItemResult) :
    (processBatch (mkBatchJob jobId userId rs.length) rs).status =
      .COMPLETED ∧
    (processBatch (mkBatchJob jobId userId rs.length) rs).successful_videos =
      (rs.filter (fun r => r.success)).length ∧
    (processBatch (mkBatchJob jobId userId rs.length) rs).failed_videos =
      (rs.filter (fun r => !r.success)).length ∧
    (processBatch (mkBatchJob jobId userId rs.length) rs).results = rs ∧
    (processBatch (mkBatchJob "b5" "u" 5) altFiveResults).status =
      .COMPLETED ∧
    (processBatch (mkBatchJob "b5" "u" 5) altFiveResults).successful_videos =
      3 ∧
    (processBatch (mkBatchJob "b5" "u" 5) altFiveResults).failed_videos = 2 := by
  have h := foldl_recordResult_counts rs
    { mkBatchJob jobId userId rs.length with status := BatchStatus.RUNNING }
  refine ⟨rfl, ?_, ?_, ?_, by decide, by decide, by decide⟩
  · show (List.foldl recordResult _ rs).successful_videos = _
    rw [h.1]; simp [mkBatchJob]
  · show (List.foldl recordResult _ rs).failed_videos = _
    rw [h.2.1]; simp [mkBatchJob]
  · show (List.foldl recordResult _ rs).results = _
    rw [h.2.2.2]; simp [mkBatchJob]

theorem recordResult_total (job : BatchJob) (r : ItemResult) :
    (recordResult job r).total_videos = job.total_videos := by
  cases hr : r.success <;> simp [recordResult, hr]

theorem recordResult_processed (job : BatchJob) (r : ItemResult) :
    (recordResult job r).successful_videos +
      (recordResult job r).failed_videos =
      job.successful_videos + job.failed_videos + 1 := by
  cases hr : r.success <;> simp [recordResult, hr] <;> omega

theorem recordResult_progress (job : BatchJob) (r : ItemResult) :
    (recordResult job r).progress =
      pyProgress (job.successful_videos + job.failed_videos + 1)
        job.total_videos := by
  have h1 : job.successful_videos + 1 + job.failed_videos =
      job.successful_videos + job.failed_videos + 1 := by omega
  have h2 : job.successful_videos + (job.failed_videos + 1) =
      job.successful_videos + job.failed_videos + 1 := by omega
  cases hr : r.success <;> simp [recordResult, hr, h1, h2]

theorem foldl_recordResult_progress (rs : List ItemResult) :
    ∀ job : BatchJob, rs ≠ [] →
      (rs.foldl recordResult job).progress =
        pyProgress (job.successful_videos + job.failed_videos + rs.length)
          job.total_videos := by
  induction rs with
  | nil => intro job h; exact absurd rfl h
  | cons r rest ih =>
    intro job _
    by_cases hre : rest = []
    · subst hre
      simp only [List.foldl_cons, List.foldl_nil, List.length_cons,
        List.length_nil, Nat.zero_add]
      rw [recordResult_progress]
    · have h : job.successful_videos + job.failed_videos + 1 + rest.length =
          job.successful_videos + job.failed_videos + (rest.length + 1) := by
        omega
      simp only [List.foldl_cons, List.length_cons]
      rw [ih (recordResult job r) hre, recordResult_processed,
        recordResult_total, h]

/-- The batch progress value reported after the first `k` completions of the
serialized completion order `rs` of a batch started over `rs.length` URLs. -/
def progressAfter (jobId userId : String) (rs : List ItemResult)
    (k : Nat) : Nat :=
  ((rs.take k).foldl recordResult
    { mkBatchJob jobId userId rs.length with
        status := BatchStatus.RUNNING }).progress

theorem roundDouble_zero : roundDouble 0 = 0 := by
  unfold roundDouble
  rw [if_pos le_rfl]

theorem pyProgress_zero (t : ℕ) : pyProgress 0 t = 0 := by
  unfold pyProgress
  rw [show ((0:ℕ):ℚ) / (t:ℚ) = 0 by norm_num, roundDouble_zero, zero_mul,
    roundDouble_zero]
  simp

theorem progressAfter_eq (jobId userId : String) (rs : List ItemResult)
    (k : Nat) (hk : k ≤ rs.length) :
    progressAfter jobId userId rs k = pyProgress k rs.length := by
  unfold progressAfter
  by_cases h0 : k = 0
  · subst h0
    simp [mkBatchJob, pyProgress_zero]
  · have hne : rs.take k ≠ [] := by
      have hlt : 0 < (rs.take k).length := by
        rw [List.length_take]
        omega
      exact List.ne_nil_of_length_pos hlt
    rw [foldl_recordResult_progress _ _ hne]
    simp only [mkBatchJob, List.length_take]
    rw [Nat.min_eq_left hk]
    simp

/-- Embeds the workflow progress computation of
`TaskMonitor.get_workflow_status` (src/app/tasks/task_monitor.py lines
124-128): `progress = int((completed_steps / total_steps) * 100)` - the
same binary64 float pipeline as the batch progress. -/
def workflow_progress (completed_steps total_steps : Nat) : Nat :=
  pyProgress completed_steps total_steps

theorem roundHalfEven_floor_le (s : ℚ) : ⌊s⌋ ≤ roundHalfEven s := by
  unfold roundHalfEven
  split_ifs <;> omega

theorem roundHalfEven_le_floor_succ (s : ℚ) : roundHalfEven s ≤ ⌊s⌋ + 1 := by
  unfold roundHalfEven
  split_ifs <;> omega

theorem roundHalfEven_mono {s t : ℚ} (h : s ≤ t) :
    roundHalfEven s ≤ roundHalfEven t := by
  rcases lt_or_eq_of_le (Int.floor_le_floor h) with hlt | heq
  · calc roundHalfEven s ≤ ⌊s⌋ + 1 := roundHalfEven_le_floor_succ s
      _ ≤ ⌊t⌋ := by omega
      _ ≤ roundHalfEven t := roundHalfEven_floor_le t
  · unfold roundHalfEven
    rw [← heq]
    split_ifs <;> first | omega | (exfalso; linarith)

theorem binadeExp_spec (q : ℚ) (hq : 0 < q) :
    (2:ℚ) ^ binadeExp q ≤ q ∧ q < 2 ^ (binadeExp q + 1) := by
  have hnum : 0 < q.num := Rat.num_pos.mpr hq
  have hdenn : 0 < q.den := q.den_pos
  have hA1n : 2 ^ q.num.natAbs.log2 ≤ q.num.natAbs :=
    Nat.log2_self_le (by omega)
  have hA2n : q.num.natAbs < 2 ^ (q.num.natAbs.log2 + 1) := Nat.lt_log2_self
  have hB1n : 2 ^ q.den.log2 ≤ q.den := Nat.log2_self_le (by omega)
  have hB2n : q.den < 2 ^ (q.den.log2 + 1) := Nat.lt_log2_self
  have hA1 : (2:ℚ) ^ q.num.natAbs.log2 ≤ (q.num.natAbs : ℚ) := by
    exact_mod_cast hA1n
  have hA2 : (q.num.natAbs : ℚ) < 2 ^ (q.num.natAbs.log2 + 1) := by
    exact_mod_cast hA2n
  have hB1 : (2:ℚ) ^ q.den.log2 ≤ (q.den : ℚ) := by exact_mod_cast hB1n
  have hB2 : (q.den : ℚ) < 2 ^ (q.den.log2 + 1) := by exact_mod_cast hB2n
  have hqden : (0:ℚ) < (q.den : ℚ) := by exact_mod_cast hdenn
  have hqnum : (0:ℚ) < (q.num.natAbs : ℚ) := by
    have : 0 < q.num.natAbs := by omega
    exact_mod_cast this
  have hnc : ((q.num.natAbs : ℚ)) = (q.num : ℚ) := by
    have h0 : ((q.num.natAbs : ℤ) : ℚ) = ((q.num : ℤ) : ℚ) := by
      rw [Int.natAbs_of_nonneg hnum.le]
    rw [Int.cast_natCast] at h0
    exact h0
  have hq_eq : q = (q.num.natAbs : ℚ) / (q.den : ℚ) := by
    rw [hnc]
    exact (Rat.num_div_den q).symm
  have key_low :
      (2:ℚ) ^ ((q.num.natAbs.log2 : ℤ) - (q.den.log2 : ℤ) - 1) < q := by
    have hz : (2:ℚ) ^ ((q.num.natAbs.log2 : ℤ) - (q.den.log2 : ℤ) - 1) =
        (2:ℚ) ^ q.num.natAbs.log2 / 2 ^ (q.den.log2 + 1) := by
      rw [← zpow_natCast (2:ℚ) q.num.natAbs.log2,
        ← zpow_natCast (2:ℚ) (q.den.log2 + 1), ← zpow_sub₀ two_ne_zero]
      congr 1
      push_cast
      ring
    rw [hz]
    calc (2:ℚ) ^ q.num.natAbs.log2 / 2 ^ (q.den.log2 + 1)
        ≤ (q.num.natAbs : ℚ) / 2 ^ (q.den.log2 + 1) := by gcongr
      _ < (q.num.natAbs : ℚ) / (q.den : ℚ) :=
          div_lt_div_of_pos_left hqnum hqden hB2
      _ = q := hq_eq.symm
  have key_up :
      q < (2:ℚ) ^ ((q.num.natAbs.log2 : ℤ) - (q.den.log2 : ℤ) + 1) := by
    have hz : (2:ℚ) ^ ((q.num.natAbs.log2 : ℤ) - (q.den.log2 : ℤ) + 1) =
        (2:ℚ) ^ (q.num.natAbs.log2 + 1) / 2 ^ q.den.log2 := by
      rw [← zpow_natCast (2:ℚ) (q.num.natAbs.log2 + 1),
        ← zpow_natCast (2:ℚ) q.den.log2, ← zpow_sub₀ two_ne_zero]
      congr 1
      push_cast
      ring
    rw [hz]
    calc q = (q.num.natAbs : ℚ) / (q.den : ℚ) := hq_eq
      _ < (2:ℚ) ^ (q.num.natAbs.log2 + 1) / (q.den : ℚ) := by gcongr
      _ ≤ (2:ℚ) ^ (q.num.natAbs.log2 + 1) / 2 ^ q.den.log2 :=
          div_le_div_of_nonneg_left (by positivity) (by positivity) hB1
  unfold binadeExp
  by_cases hc : q < 2 ^ ((q.num.natAbs.log2 : ℤ) - (q.den.log2 : ℤ))
  · rw [if_pos hc]
    refine ⟨le_of_lt key_low, ?_⟩
    have he : (q.num.natAbs.log2 : ℤ) - (q.den.log2 : ℤ) - 1 + 1 =
        (q.num.natAbs.log2 : ℤ) - (q.den.log2 : ℤ) := by ring
    rw [he]
    exact hc
  · rw [if_neg hc]
    exact ⟨not_lt.mp hc, key_up⟩

theorem roundDouble_nonneg (q : ℚ) : 0 ≤ roundDouble q := by
  unfold roundDouble
  split_ifs with h
  · exact le_rfl
  · have hq : 0 < q := not_le.mp h
    have hs : 0 < q * 2 ^ (52 - binadeExp q) :=
      mul_pos hq (zpow_pos two_pos _)
    have hge : (0:ℤ) ≤ roundHalfEven (q * 2 ^ (52 - binadeExp q)) :=
      le_trans (Int.floor_nonneg.mpr hs.le) (roundHalfEven_floor_le _)
    exact mul_nonneg (by exact_mod_cast hge) (zpow_pos two_pos _).le

theorem roundDouble_mono {x y : ℚ} (h : x ≤ y) :
    roundDouble x ≤ roundDouble y := by
  by_cases hx : x ≤ 0
  · rw [show roundDouble x = 0 from by unfold roundDouble; rw [if_pos hx]]
    exact roundDouble_nonneg y
  · have hx0 : 0 < x := not_le.mp hx
    have hy0 : 0 < y := lt_of_lt_of_le hx0 h
    obtain ⟨hxl, hxu⟩ := binadeExp_spec x hx0
    obtain ⟨hyl, hyu⟩ := binadeExp_spec y hy0
    have hk : binadeExp x ≤ binadeExp y := by
      have h1 : (2:ℚ) ^ binadeExp x < 2 ^ (binadeExp y + 1) :=
        lt_of_le_of_lt (le_trans hxl h) hyu
      have h2 : binadeExp x < binadeExp y + 1 :=
        (zpow_lt_zpow_iff_right₀ one_lt_two).mp h1
      omega
    have hrwx : roundDouble x =
        (roundHalfEven (x * 2 ^ (52 - binadeExp x)) : ℚ) *
          2 ^ (binadeExp x - 52) := by
      unfold roundDouble
      rw [if_neg hx]
    have hrwy : roundDouble y =
        (roundHalfEven (y * 2 ^ (52 - binadeExp y)) : ℚ) *
          2 ^ (binadeExp y - 52) := by
      unfold roundDouble
      rw [if_neg (not_le.mpr hy0)]
    rcases eq_or_lt_of_le hk with heq | hlt
    · rw [hrwx, hrwy, ← heq]
      refine mul_le_mul_of_nonneg_right ?_ (zpow_pos two_pos _).le
      have hmono : roundHalfEven (x * 2 ^ (52 - binadeExp x)) ≤
          roundHalfEven (y * 2 ^ (52 - binadeExp x)) :=
        roundHalfEven_mono
          (mul_le_mul_of_nonneg_right h (zpow_pos two_pos _).le)
      exact_mod_cast hmono
    · have hxle : roundDouble x ≤ 2 ^ (binadeExp x + 1) := by
        rw [hrwx]
        have hs : x * 2 ^ (52 - binadeExp x) < 2 ^ (53:ℤ) := by
          calc x * 2 ^ (52 - binadeExp x)
              < 2 ^ (binadeExp x + 1) * 2 ^ (52 - binadeExp x) :=
                mul_lt_mul_of_pos_right hxu (zpow_pos two_pos _)
            _ = 2 ^ (53:ℤ) := by
                rw [← zpow_add₀ two_ne_zero]
                congr 1
                ring
        have hfl : roundHalfEven (x * 2 ^ (52 - binadeExp x)) ≤
            9007199254740992 := by
          have h1 : ⌊x * 2 ^ (52 - binadeExp x)⌋ < 9007199254740992 := by
            rw [Int.floor_lt]
            have : ((9007199254740992 : ℤ) : ℚ) = 2 ^ (53:ℤ) := by norm_num
            rw [this]
            exact hs
          have h2 := roundHalfEven_le_floor_succ (x * 2 ^ (52 - binadeExp x))
          omega
        calc (roundHalfEven (x * 2 ^ (52 - binadeExp x)) : ℚ) *
              2 ^ (binadeExp x - 52)
            ≤ (9007199254740992 : ℚ) * 2 ^ (binadeExp x - 52) :=
              mul_le_mul_of_nonneg_right (by exact_mod_cast hfl)
                (zpow_pos two_pos _).le
          _ = 2 ^ (binadeExp x + 1) := by
              rw [show (9007199254740992 : ℚ) = 2 ^ (53:ℤ) from by norm_num,
                ← zpow_add₀ two_ne_zero]
              congr 1
              ring
      have hyge : (2:ℚ) ^ binadeExp y ≤ roundDouble y := by
        rw [hrwy]
        have hs : (2:ℚ) ^ (52:ℤ) ≤ y * 2 ^ (52 - binadeExp y) := by
          calc (2:ℚ) ^ (52:ℤ)
              = 2 ^ binadeExp y * 2 ^ (52 - binadeExp y) := by
                rw [← zpow_add₀ two_ne_zero]
                congr 1
                ring
            _ ≤ y * 2 ^ (52 - binadeExp y) :=
              mul_le_mul_of_nonneg_right hyl (zpow_pos two_pos _).le
        have hfl : (4503599627370496 : ℤ) ≤
            roundHalfEven (y * 2 ^ (52 - binadeExp y)) := by
          have h1 : (4503599627370496 : ℤ) ≤
              ⌊y * 2 ^ (52 - binadeExp y)⌋ := by
            rw [Int.le_floor]
            have : ((4503599627370496 : ℤ) : ℚ) = 2 ^ (52:ℤ) := by norm_num
            rw [this]
            exact hs
          have h2 := roundHalfEven_floor_le (y * 2 ^ (52 - binadeExp y))
          omega
        calc (2:ℚ) ^ binadeExp y
            = (4503599627370496 : ℚ) * 2 ^ (binadeExp y - 52) := by
              rw [show (4503599627370496 : ℚ) = 2 ^ (52:ℤ) from by norm_num,
                ← zpow_add₀ two_ne_zero]
              congr 1
              ring
          _ ≤ (roundHalfEven (y * 2 ^ (52 - binadeExp y)) : ℚ) *
              2 ^ (binadeExp y - 52) :=
            mul_le_mul_of_nonneg_right (by exact_mod_cast hfl)
              (zpow_pos two_pos _).le
      calc roundDouble x ≤ 2 ^ (binadeExp x + 1) := hxle
        _ ≤ 2 ^ binadeExp y := zpow_le_zpow_right₀ one_le_two (by omega)
        _ ≤ roundDouble y := hyge

theorem pyProgress_mono (t : ℕ) {p q : ℕ} (h : p ≤ q) :
    pyProgress p t ≤ pyProgress q t := by
  unfold pyProgress
  apply Int.toNat_le_toNat
  apply Int.floor_le_floor
  apply roundDouble_mono
  refine mul_le_mul_of_nonneg_right ?_ (by norm_num)
  apply roundDouble_mono
  by_cases ht : (t:ℚ) = 0
  · rw [ht]
    simp
  · have ht0 : (0:ℚ) < t :=
      lt_of_le_of_ne (Nat.cast_nonneg t) (Ne.symm ht)
    gcongr


theorem roundHalfEven_eq_down {s : ℚ} {n : ℤ} (h1 : (n:ℚ) ≤ s)
    (h2 : s < (n:ℚ) + 1/2) : roundHalfEven s = n := by
  have hfl : ⌊s⌋ = n := by
    rw [Int.floor_eq_iff]
    refine ⟨h1, ?_⟩
    have hh : (1:ℚ)/2 < 1 := by norm_num
    linarith
  unfold roundHalfEven
  rw [hfl, if_pos (by linarith)]

theorem roundDouble_eval {q : ℚ} {k : ℤ} {n : ℤ} (h1 : (2:ℚ) ^ k ≤ q)
    (h2 : q < 2 ^ (k + 1)) (h3 : (n:ℚ) ≤ q * 2 ^ (52 - k))
    (h4 : q * 2 ^ (52 - k) < (n:ℚ) + 1/2) :
    roundDouble q = (n:ℚ) * 2 ^ (k - 52) := by
  have hq : 0 < q := lt_of_lt_of_le (zpow_pos two_pos k) h1
  have hspec := binadeExp_spec q hq
  have hkeq : binadeExp q = k := by
    by_contra hne
    rcases lt_or_gt_of_ne hne with hl | hg
    · have hle : (2:ℚ) ^ (binadeExp q + 1) ≤ 2 ^ k :=
        zpow_le_zpow_right₀ one_le_two (by omega)
      linarith [hspec.2, h1]
    · have hle : (2:ℚ) ^ (k + 1) ≤ 2 ^ binadeExp q :=
        zpow_le_zpow_right₀ one_le_two (by omega)
      linarith [hspec.1, h2]
  unfold roundDouble
  rw [if_neg (not_le.mpr hq), hkeq, roundHalfEven_eq_down h3 h4]

/-- A successful per-item result, used to build concrete completion
orders. -/
def okItem : ItemResult := process_single_url (.returns true "ok") 0

theorem pyProgress_29_100 : pyProgress 29 100 = 28 := by
  unfold pyProgress
  rw [show ((29:ℕ):ℚ) / ((100:ℕ):ℚ) = 29/100 by norm_num]
  have e1 : roundDouble ((29:ℚ)/100) =
      ((5224175567749775:ℤ):ℚ) * 2 ^ ((-2:ℤ) - 52) :=
    roundDouble_eval (by norm_num) (by norm_num) (by norm_num) (by norm_num)
  rw [e1]
  have e2 : roundDouble (((5224175567749775:ℤ):ℚ) * 2 ^ ((-2:ℤ) - 52) * 100) =
      ((8162774324609023:ℤ):ℚ) * 2 ^ ((4:ℤ) - 52) :=
    roundDouble_eval (by push_cast; norm_num) (by push_cast; norm_num)
      (by push_cast; norm_num) (by push_cast; norm_num)
  rw [e2]
  have e3 : (⌊((8162774324609023:ℤ):ℚ) * 2 ^ ((4:ℤ) - 52)⌋ : ℤ) = 28 := by
    rw [Int.floor_eq_iff]
    constructor
    · push_cast
      norm_num
    · push_cast
      norm_num
  rw [e3]
  rfl

/-- C9 counterexample: progress is computed through binary64 floats, not
exact arithmetic. At 29 completed steps of 100 the workflow progress
`int((29 / 100) * 100)` evaluates to 28 - the double nearest 29/100 lies
just below it and the product with 100 rounds below 29 - while the claimed
formula `100 * (29 / 100)` gives 29; the batch progress after 29 of 100
terminal items reports the same 28. -/
theorem progress_float_rounding_counterexample :
    workflow_progress 29 100 = 28 ∧
    100 * 29 / 100 = 29 ∧
    workflow_progress 29 100 ≠ 100 * 29 / 100 ∧
    progressAfter "b100" "u" (List.replicate 100 okItem) 29 = 28 := by
  have hw : workflow_progress 29 100 = 28 := pyProgress_29_100
  refine ⟨hw, by norm_num, by rw [hw]; norm_num, ?_⟩
  have hlen : (List.replicate 100 okItem).length = 100 :=
    List.length_replicate 100 okItem
  have h4 := progressAfter_eq "b100" "u" (List.replicate 100 okItem) 29
    (by rw [hlen]; omega)
  rw [h4, hlen]
  exact pyProgress_29_100

/-- C9 amended: batch progress after any `k` terminal items (in any
completion order) equals the binary64 evaluation of `int((k / total) * 100)`
- which, as the counterexample shows, can report one percent below the
exact ratio - and it still never decreases as more items reach a terminal
result, for every completion order; the workflow progress of
`get_workflow_status` is the same float pipeline and is likewise monotone in
the completed-step count. -/
theorem progress_float_pipeline_monotone (jobId userId : String)
    (rs : List ItemResult) (k k2 : Nat) (hk : k ≤ k2) (hk2 : k2 ≤ rs.length)
    (c c2 t : Nat) (hc : c ≤ c2) :
    progressAfter jobId userId rs k = pyProgress k rs.length ∧
    progressAfter jobId userId rs k ≤ progressAfter jobId userId rs k2 ∧
    workflow_progress c t ≤ workflow_progress c2 t := by
  have h1 := progressAfter_eq jobId userId rs k (hk.trans hk2)
  have h2 := progressAfter_eq jobId userId rs k2 hk2
  refine ⟨h1, ?_, pyProgress_mono t hc⟩
  rw [h1, h2]
  exact pyProgress_mono rs.length hk

theorem progress_float_pipeline_monotone_witness :
    progressAfter "b5" "u" altFiveResults 2 =
      pyProgress 2 altFiveResults.length ∧
    progressAfter "b5" "u" altFiveResults 2 ≤
      progressAfter "b5" "u" altFiveResults 4 ∧
    workflow_progress 1 3 ≤ workflow_progress 2 3 := by
  exact progress_float_pipeline_monotone "b5" "u" altFiveResults 2 4
    (by decide) (by decide) 1 2 3 (by decide)

/-- The dict returned by `BatchVideoIngestionService.get_batch_results`
(src/app/services/ingest/batch_ingestion.py lines 205-221), restricted to
the aggregate fields: the success rate is
`successful_videos / total_videos * 100` computed only under the
`total_videos > 0` guard, and 0 otherwise. -/
structure BatchResultsView where
  total_videos : Nat
  successful_videos : Nat
  failed_videos : Nat
  success_rate : ℚ
  results : List ItemResult
deriving DecidableEq, Repr

/-- Embeds the aggregate part of `get_batch_results`. -/
def get_batch_results (job : BatchJob) : BatchResultsView :=
  { total_videos := job.total_videos,
    successful_videos := job.successful_videos,
    failed_videos := job.failed_videos,
    success_rate :=
      if job.total_videos > 0 then
        (job.successful_videos : ℚ) / job.total_videos * 100
      else 0,
    results := job.results }

/-- C10: the detailed-results query of a processed batch never divides by
zero: with at least one item the reported success rate equals
`100 * successful_videos / total_videos` (the divisor positive), and for a
batch of zero items the guard yields 0 instead of a division. -/
theorem success_rate_guarded (jobId userId : String) (rs : List ItemResult) :
    (rs.length > 0 →
      (get_batch_results
        (processBatch (mkBatchJob jobId userId rs.length) rs)).success_rate =
        100 * ((rs.filter (fun r => r.success)).length : ℚ) / rs.length) ∧
    (rs.length = 0 →
      (get_batch_results
        (processBatch (mkBatchJob jobId userId rs.length) rs)).success_rate =
        0) := by
  have h := foldl_recordResult_counts rs
    { mkBatchJob jobId userId rs.length with status := BatchStatus.RUNNING }
  have htot : (processBatch (mkBatchJob jobId userId rs.length)
      rs).total_videos = rs.length := by
    show (List.foldl recordResult _ rs).total_videos = rs.length
    rw [h.2.2.1]
    simp [mkBatchJob]
  have hsucc : (processBatch (mkBatchJob jobId userId rs.length)
      rs).successful_videos = (rs.filter (fun r => r.success)).length := by
    show (List.foldl recordResult _ rs).successful_videos = _
    rw [h.1]
    simp [mkBatchJob]
  constructor
  · intro hpos
    unfold get_batch_results
    simp only [htot, hsucc]
    rw [if_pos hpos]
    ring
  · intro hzero
    unfold get_batch_results
    simp only [htot, hsucc]
    rw [if_neg (by omega)]

theorem success_rate_guarded_witness :
    altFiveResults.length > 0 ∧
    (get_batch_results
      (processBatch (mkBatchJob "b5" "u" altFiveResults.length)
        altFiveResults)).success_rate =
      100 * ((altFiveResults.filter (fun r => r.success)).length : ℚ) /
        altFiveResults.length := by
  exact ⟨by decide,
    (success_rate_guarded "b5" "u" altFiveResults).1 (by decide)⟩

/-- A group member result delivered to the chord callback: the member value
or a failure marker. -/
inductive ResultMarker
  | ok (value : Nat)
  | failureOf (msg : String)
deriving DecidableEq, Repr

/-- Modelled from the spec: the completion protocol behind the Celery
`chord(group)(callback)` primitive used by
`complete_video_automation_workflow` (src/app/tasks/workflow_tasks.py lines
100-125) is implemented inside the Celery library, not in this repository;
spec section 4.4 specifies it as an atomic completion counter over the group
members, where the worker whose decrement reaches zero is the one that
enqueues the callback with the ordered list of member results. `ChordState`
is the shared chord state: which members already finished, the remaining
counter, and the callback enqueues performed so far (each with its
payload). -/
structure ChordState (n : Nat) where
  finished : Fin n → Bool
  remaining : Nat
  enqueues : List (List ResultMarker)

/-- Modelled from the spec: initial chord state for a group of `n` members -
no member finished, the counter holds the group size, no callback
enqueued. -/
def initChord (n : Nat) : ChordState n :=
  { finished := fun _ => false, remaining := n, enqueues := [] }

/-- Modelled from the spec: member `i` reaching its terminal state performs
the atomic decrement; the decrement that reaches zero (and only that one)
appends the callback enqueue carrying the member results in member order.
A member already recorded as finished does not decrement again. -/
def completeMember {n : Nat} (results : Fin n → ResultMarker)
    (s : ChordState n) (i : Fin n) : ChordState n :=
  if s.finished i then s
  else
    { finished := fun j => if j = i then true else s.finished j,
      remaining := s.remaining - 1,
      enqueues :=
        if s.remaining - 1 = 0 then s.enqueues ++ [List.ofFn results]
        else s.enqueues }

/-- Modelled from the spec: the chord run over a serialized completion order
of the members (two members finishing at the same instant are serialized by
the atomicity of the counter). -/
def runChord {n : Nat} (results : Fin n → ResultMarker)
    (order : List (Fin n)) : ChordState n :=
  order.foldl (completeMember results) (initChord n)

theorem runChord_invariant {n : Nat} (results : Fin n → ResultMarker)
    (l : List (Fin n)) (hl : l.Nodup) :
    (∀ j, (runChord results l).finished j = decide (j ∈ l)) ∧
    (runChord results l).remaining = n - l.length ∧
    (runChord results l).enqueues =
      (if l.length = n ∧ 0 < n then [List.ofFn results] else []) := by
  induction l using List.reverseRecOn with
  | nil =>
    refine ⟨fun j => by simp [runChord, initChord], by simp [runChord, initChord], ?_⟩
    simp only [runChord, List.foldl_nil, initChord, List.length_nil]
    rw [if_neg (by omega)]
  | append_singleton xs a ih =>
    obtain ⟨hxs, hsing, hdisj⟩ := List.nodup_append.mp hl
    have hmem : a ∉ xs := fun hc => hdisj hc (by simp)
    obtain ⟨hfin, hrem, henq⟩ := ih hxs
    have hle : xs.length + 1 ≤ n := by
      have := hl.length_le_card
      simpa [Fintype.card_fin] using this
    have hnotfin : (runChord results xs).finished a = false := by
      rw [hfin a]
      simp [hmem]
    have hstep : runChord results (xs ++ [a]) =
        completeMember results (runChord results xs) a := by
      unfold runChord
      rw [List.foldl_append]
      rfl
    rw [hstep]
    unfold completeMember
    rw [hnotfin]
    simp only [Bool.false_eq_true, if_false]
    refine ⟨?_, ?_, ?_⟩
    · intro j
      by_cases hj : j = a
      · subst hj
        simp
      · simp only [hj, if_false, hfin j]
        simp [List.mem_append, hj]
    · rw [hrem, List.length_append]
      simp only [List.length_singleton]
      omega
    · rw [hrem, henq]
      by_cases hfull : xs.length + 1 = n
      · have c1 : ¬(xs.length = n ∧ 0 < n) := by omega
        have c2 : n - xs.length - 1 = 0 := by omega
        have c3 : (xs ++ [a]).length = n ∧ 0 < n := by
          rw [List.length_append, List.length_singleton]
          omega
        rw [if_neg c1, if_pos c2, if_pos c3]
        simp
      · have c1 : ¬(xs.length = n ∧ 0 < n) := by omega
        have c2 : ¬(n - xs.length - 1 = 0) := by omega
        have c3 : ¬((xs ++ [a]).length = n ∧ 0 < n) := by
          rw [List.length_append, List.length_singleton]
          omega
        rw [if_neg c1, if_neg c2, if_neg c3]

/-- C5, settled against the spec-modelled completion protocol (the chord
mechanism lives in the Celery library, outside this repository source): for
every group of size `n > 0`, every assignment of member results or failure
markers, and every serialized completion order of the `n` members, the
callback is enqueued exactly once, carrying the list of all member results
ordered by member position; after any proper prefix of the completions
(while some member is not yet terminal) no callback has been enqueued; and
by the time the callback is enqueued every member is finished. -/
theorem chord_callback_exactly_once {n : Nat}
    (results : Fin n → ResultMarker) (order : List (Fin n))
    (hnd : order.Nodup) (hlen : order.length = n) (hn : 0 < n) :
    (runChord results order).enqueues = [List.ofFn results] ∧
    (∀ k, k < n → (runChord results (order.take k)).enqueues = []) ∧
    (∀ j, (runChord results order).finished j = true) := by
  obtain ⟨hfin, hrem, henq⟩ := runChord_invariant results order hnd
  refine ⟨?_, ?_, ?_⟩
  · rw [henq, if_pos ⟨hlen, hn⟩]
  · intro k hk
    obtain ⟨_, _, henq2⟩ := runChord_invariant results (order.take k)
      ((List.take_sublist k order).nodup hnd)
    rw [henq2, if_neg ?_]
    rw [List.length_take, hlen]
    omega
  · intro j
    have hcard : order.toFinset.card = n := by
      rw [List.toFinset_card_of_nodup hnd, hlen]
    have huniv : order.toFinset = Finset.univ :=
      Finset.eq_univ_of_card _ (by rw [hcard, Fintype.card_fin])
    have hmem : j ∈ order := by
      rw [← List.mem_toFinset, huniv]
      exact Finset.mem_univ j
    rw [hfin j]
    simp [hmem]

/-- A concrete three-member assignment with a failing second member, for
evaluating the chord protocol: the callback payload carries two results and
one failure marker in member order. -/
def demoResults : Fin 3 → ResultMarker :=
  ![ResultMarker.ok 10, ResultMarker.failureOf "member failed",
    ResultMarker.ok 30]

theorem chord_callback_exactly_once_witness :
    (runChord demoResults [1, 0, 2]).enqueues = [List.ofFn demoResults] ∧
    (runChord demoResults ([1, 0, 2].take 2)).enqueues = [] ∧
    (runChord demoResults [1, 0, 2]).finished 1 = true := by
  have h := chord_callback_exactly_once demoResults [1, 0, 2]
    (by decide) (by decide) (by decide)
  exact ⟨h.1, h.2.1 2 (by decide), h.2.2 1⟩
